import Mathlib

/-!
Shallow embedding of the acquisition service of a code-push style
over-the-air update server: rollout selector, version normalizer,
cache-key builder, update-selection engine, cache-manager error plumbing,
and deploy-report validation, with theorems checking the specification.
-/

namespace CodePush

/-- JavaScript ToInt32: wrap an integer to the signed 32-bit range. -/
def toInt32 (n : ℤ) : ℤ := (n + 2 ^ 31) % 2 ^ 32 - 2 ^ 31

/-- Accumulator loop of getHashCode (rollout-selector). In JavaScript,
`hash = (hash << 5) - hash + chr` coerces only the shift operand to int32;
the subtraction and addition are exact (double) arithmetic. -/
def getHashCodeGo (h : ℤ) : List ℤ → ℤ
  | [] => h
  | c :: cs => getHashCodeGo (toInt32 (h * 32) - h + c) cs

/-- getHashCode from rollout-selector, over the code units of the input. -/
def getHashCode (s : List ℤ) : ℤ := getHashCodeGo 0 s

/-- Modelled from the spec's words, for comparison with the source function:
the recurrence with every step's result wrapped to 32 bits. -/
def getHashCodeWrappedGo (h : ℤ) : List ℤ → ℤ
  | [] => h
  | c :: cs => getHashCodeWrappedGo (toInt32 (toInt32 (h * 32) - h + c)) cs

/-- The spec's fully 32-bit-wrapped hash. -/
def getHashCodeWrapped (s : List ℤ) : ℤ := getHashCodeWrappedGo 0 s

/-- Code units of a string (scalar values; exact for BMP text). -/
def strCodes (s : String) : List ℤ := s.data.map (fun c => (c.toNat : ℤ))

/-- isSelectedForRollout from rollout-selector:
`Math.abs(getHashCode(clientId + "-" + releaseTag)) % 100 < rollout`. -/
def isSelectedForRollout (clientId : String) (rollout : ℚ) (releaseTag : String) : Bool :=
  decide ((((getHashCode (strCodes (clientId ++ "-" ++ releaseTag))).natAbs % 100 : ℕ) : ℚ) < rollout)

lemma toInt32_emod (n : ℤ) : toInt32 n % 2 ^ 32 = n % 2 ^ 32 := by
  unfold toInt32
  omega

lemma getHashCodeGo_congr (s : List ℤ) : ∀ h1 h2 : ℤ, h1 % 2 ^ 32 = h2 % 2 ^ 32 →
    getHashCodeGo h1 s % 2 ^ 32 = getHashCodeWrappedGo h2 s % 2 ^ 32 := by
  induction s with
  | nil =>
    intro h1 h2 h
    simpa [getHashCodeGo, getHashCodeWrappedGo] using h
  | cons c cs ih =>
    intro h1 h2 h
    simp only [getHashCodeGo, getHashCodeWrappedGo]
    apply ih
    unfold toInt32
    omega

/-- Input refuting the claim that getHashCode wraps at every step:
seven code units 0xFFFF. -/
def c1Input : List ℤ := List.replicate 7 65535

/-- C1 counterexample: getHashCode does not equal the 32-bit wrapped
accumulator claimed by the spec; on seven 0xFFFF code units the source
function leaves the signed 32-bit range while the wrapped recurrence stays
inside it. -/
theorem c1_counterexample :
    getHashCode c1Input ≠ getHashCodeWrapped c1Input ∧
      ¬ (-(2 ^ 31) ≤ getHashCode c1Input ∧ getHashCode c1Input < 2 ^ 31) := by
  decide

/-- C1 (amended): getHashCode agrees with the 32-bit wrapped accumulator
modulo 2^32 (only the shift operand is coerced to int32 each step), the
empty string hashes to 0, and isSelectedForRollout returns
|getHashCode(clientId + "-" + releaseTag)| mod 100 < rollout. -/
theorem c1_hash_mod_equivalence :
    (∀ s : List ℤ, getHashCode s % 2 ^ 32 = getHashCodeWrapped s % 2 ^ 32)
    ∧ getHashCode [] = 0
    ∧ ∀ (clientId releaseTag : String) (rollout : ℚ),
        isSelectedForRollout clientId rollout releaseTag =
          decide ((((getHashCode (strCodes (clientId ++ "-" ++ releaseTag))).natAbs % 100 : ℕ) : ℚ)
            < rollout) :=
  ⟨fun s => getHashCodeGo_congr s 0 0 rfl, rfl, fun _ _ _ => rfl⟩

/-- isUnfinishedRollout from rollout-selector: rollout present and not 100. -/
def isUnfinishedRollout (rollout : Option ℚ) : Bool :=
  match rollout with
  | none => false
  | some r => decide (r ≠ 100)

/-- RolloutComputationInput from rollout-selector (optional numbers). -/
structure RolloutComputationInput where
  rollout : Option ℚ := none
  holdDurationMinutes : Option ℚ := none
  rampDurationMinutes : Option ℚ := none
  uploadTime : Option ℚ := none
deriving DecidableEq

def MS_PER_MINUTE : ℚ := 60 * 1000

/-- JavaScript Math.round: round half toward positive infinity. -/
def jsRound (x : ℚ) : ℤ := ⌊x + 1 / 2⌋

/-- Rounding to three decimal places: `Math.round(x * 1000) / 1000`. -/
def roundTo3 (x : ℚ) : ℚ := (jsRound (x * 1000) : ℚ) / 1000

/-- getEffectiveRollout from rollout-selector: base rollout during the hold
window, then a linear ramp toward 100.  The JavaScript locals
(`elapsedMs`, `holdMs`, `rampMs`, `rampElapsed`, `progress`, `computed`)
are inlined; `!uploadTime` is falsy for both an absent and a zero
upload time; `holdDurationMinutes || 0` and `rampDurationMinutes || 0`
default absent values to 0. -/
def getEffectiveRollout (ri : RolloutComputationInput) (now : ℚ) : ℚ :=
  if isUnfinishedRollout ri.rollout = false then
    match ri.rollout with
    | none => 100
    | some r => r
  else
    match ri.uploadTime with
    | none => ri.rollout.getD 0
    | some uploadTime =>
      if uploadTime = 0 then ri.rollout.getD 0
      else if (0 < ri.holdDurationMinutes.getD 0 * MS_PER_MINUTE ∧
                now - uploadTime < ri.holdDurationMinutes.getD 0 * MS_PER_MINUTE)
              ∨ (ri.holdDurationMinutes.getD 0 * MS_PER_MINUTE = 0 ∧ now - uploadTime < 0) then
        ri.rollout.getD 0
      else if ri.rampDurationMinutes.getD 0 ≤ 0 then ri.rollout.getD 0
      else if max 0 (now - uploadTime - ri.holdDurationMinutes.getD 0 * MS_PER_MINUTE) ≤ 0 then
        ri.rollout.getD 0
      else
        min 100 (max (ri.rollout.getD 0)
          (roundTo3 (ri.rollout.getD 0 + (100 - ri.rollout.getD 0) *
            min 1 (max 0 (now - uploadTime - ri.holdDurationMinutes.getD 0 * MS_PER_MINUTE) /
              (ri.rampDurationMinutes.getD 0 * MS_PER_MINUTE)))))

/-- Rollout input refuting C7 as stated: uploadTime is present but zero,
which the source treats as absent (falsy), so the ramp never reaches 100. -/
def c7Input : RolloutComputationInput :=
  { rollout := some 50, holdDurationMinutes := some 0,
    rampDurationMinutes := some 1, uploadTime := some 0 }

/-- C7 counterexample: with rollout 50 (present, in [0,100], not 100),
uploadTime present (0) and rampMs = 60000 > 0, the effective rollout at
now = 1000000 ≥ uploadTime + holdMs + rampMs is 50, not 100. -/
theorem c7_counterexample :
    c7Input.rollout = some 50 ∧ c7Input.uploadTime = some 0 ∧
      (0 : ℚ) + 0 * MS_PER_MINUTE + 1 * MS_PER_MINUTE ≤ 1000000 ∧
      getEffectiveRollout c7Input 1000000 = 50 := by
  refine ⟨rfl, rfl, by norm_num [MS_PER_MINUTE], ?_⟩
  decide

lemma roundTo3_mono {x y : ℚ} (h : x ≤ y) : roundTo3 x ≤ roundTo3 y := by
  unfold roundTo3 jsRound
  have hf : (⌊x * 1000 + 1 / 2⌋ : ℤ) ≤ ⌊y * 1000 + 1 / 2⌋ := Int.floor_le_floor (by linarith)
  have hf2 : ((⌊x * 1000 + 1 / 2⌋ : ℤ) : ℚ) ≤ ((⌊y * 1000 + 1 / 2⌋ : ℤ) : ℚ) := by exact_mod_cast hf
  linarith

lemma eff_eq (ri : RolloutComputationInput) (r u now : ℚ)
    (hr : ri.rollout = some r) (hr100 : r ≠ 100) (hu : ri.uploadTime = some u) (hu0 : u ≠ 0) :
    getEffectiveRollout ri now =
      if (0 < ri.holdDurationMinutes.getD 0 * MS_PER_MINUTE ∧
            now - u < ri.holdDurationMinutes.getD 0 * MS_PER_MINUTE)
          ∨ (ri.holdDurationMinutes.getD 0 * MS_PER_MINUTE = 0 ∧ now - u < 0) then r
      else if ri.rampDurationMinutes.getD 0 ≤ 0 then r
      else if max 0 (now - u - ri.holdDurationMinutes.getD 0 * MS_PER_MINUTE) ≤ 0 then r
      else min 100 (max r (roundTo3 (r + (100 - r) *
        min 1 (max 0 (now - u - ri.holdDurationMinutes.getD 0 * MS_PER_MINUTE) /
          (ri.rampDurationMinutes.getD 0 * MS_PER_MINUTE))))) := by
  have hhead : isUnfinishedRollout (some r) = true := by simp [isUnfinishedRollout, hr100]
  simp [getEffectiveRollout, hr, hu, hhead, hu0]

lemma r_le_rampVal (r X : ℚ) (h1 : r ≤ 100) : r ≤ min 100 (max r X) :=
  le_min h1 (le_max_left r X)

lemma rampVal_mono (r M : ℚ) (h1 : r ≤ 100) (hM : 0 < M) {E1 E2 : ℚ} (hE : E1 ≤ E2) :
    min 100 (max r (roundTo3 (r + (100 - r) * min 1 (E1 / M)))) ≤
      min 100 (max r (roundTo3 (r + (100 - r) * min 1 (E2 / M)))) := by
  have hdiv : E1 / M ≤ E2 / M := by gcongr
  have hmin : min 1 (E1 / M) ≤ min 1 (E2 / M) := min_le_min le_rfl hdiv
  have hmul : (100 - r) * min 1 (E1 / M) ≤ (100 - r) * min 1 (E2 / M) :=
    mul_le_mul_of_nonneg_left hmin (by linarith)
  exact min_le_min le_rfl (max_le_max le_rfl (roundTo3_mono (by linarith)))

lemma eff_base (ri : RolloutComputationInput) (r u now : ℚ)
    (hr : ri.rollout = some r) (hr100 : r ≠ 100) (hu : ri.uploadTime = some u) (hu0 : u ≠ 0)
    (hP : (0 < ri.holdDurationMinutes.getD 0 * MS_PER_MINUTE ∧
            now - u < ri.holdDurationMinutes.getD 0 * MS_PER_MINUTE)
          ∨ (ri.holdDurationMinutes.getD 0 * MS_PER_MINUTE = 0 ∧ now - u < 0)
          ∨ ri.rampDurationMinutes.getD 0 ≤ 0
          ∨ max 0 (now - u - ri.holdDurationMinutes.getD 0 * MS_PER_MINUTE) ≤ 0) :
    getEffectiveRollout ri now = r := by
  rw [eff_eq ri r u now hr hr100 hu hu0]
  split_ifs with h1 h2 h3
  · rfl
  · rfl
  · rfl
  · exfalso
    rcases hP with h | h | h | h
    · exact h1 (Or.inl h)
    · exact h1 (Or.inr h)
    · exact h2 h
    · exact h3 h

lemma eff_ramp (ri : RolloutComputationInput) (r u now : ℚ)
    (hr : ri.rollout = some r) (hr100 : r ≠ 100) (hu : ri.uploadTime = some u) (hu0 : u ≠ 0)
    (hP : ¬ ((0 < ri.holdDurationMinutes.getD 0 * MS_PER_MINUTE ∧
            now - u < ri.holdDurationMinutes.getD 0 * MS_PER_MINUTE)
          ∨ (ri.holdDurationMinutes.getD 0 * MS_PER_MINUTE = 0 ∧ now - u < 0)
          ∨ ri.rampDurationMinutes.getD 0 ≤ 0
          ∨ max 0 (now - u - ri.holdDurationMinutes.getD 0 * MS_PER_MINUTE) ≤ 0)) :
    getEffectiveRollout ri now =
      min 100 (max r (roundTo3 (r + (100 - r) *
        min 1 (max 0 (now - u - ri.holdDurationMinutes.getD 0 * MS_PER_MINUTE) /
          (ri.rampDurationMinutes.getD 0 * MS_PER_MINUTE))))) := by
  rw [eff_eq ri r u now hr hr100 hu hu0]
  rw [if_neg (fun h => h.elim (fun h1 => hP (Or.inl h1)) (fun h2 => hP (Or.inr (Or.inl h2)))),
    if_neg (fun h => hP (Or.inr (Or.inr (Or.inl h)))),
    if_neg (fun h => hP (Or.inr (Or.inr (Or.inr h))))]

/-- C7 (amended): with rollout present, not 100 and in [0,100], and
uploadTime present and nonzero (the source treats a zero upload time as
absent), the effective rollout is monotonically non-decreasing in now,
equals the base rollout for now ≤ uploadTime + holdMs, and equals 100 for
now ≥ uploadTime + holdMs + rampMs whenever rampMs > 0. -/
theorem c7_effective_rollout (ri : RolloutComputationInput) (r u : ℚ)
    (hr : ri.rollout = some r) (hr100 : r ≠ 100) (h0 : 0 ≤ r) (h1 : r ≤ 100)
    (hu : ri.uploadTime = some u) (hu0 : u ≠ 0) :
    (∀ n1 n2 : ℚ, n1 ≤ n2 → getEffectiveRollout ri n1 ≤ getEffectiveRollout ri n2)
    ∧ (∀ n : ℚ, n ≤ u + ri.holdDurationMinutes.getD 0 * MS_PER_MINUTE →
        getEffectiveRollout ri n = r)
    ∧ (0 < ri.rampDurationMinutes.getD 0 →
        ∀ n : ℚ, u + ri.holdDurationMinutes.getD 0 * MS_PER_MINUTE
            + ri.rampDurationMinutes.getD 0 * MS_PER_MINUTE ≤ n →
        getEffectiveRollout ri n = 100) := by
  have hms : (0 : ℚ) < MS_PER_MINUTE := by norm_num [MS_PER_MINUTE]
  refine ⟨?_, ?_, ?_⟩
  · intro n1 n2 h12
    by_cases hP2 : (0 < ri.holdDurationMinutes.getD 0 * MS_PER_MINUTE ∧
            n2 - u < ri.holdDurationMinutes.getD 0 * MS_PER_MINUTE)
          ∨ (ri.holdDurationMinutes.getD 0 * MS_PER_MINUTE = 0 ∧ n2 - u < 0)
          ∨ ri.rampDurationMinutes.getD 0 ≤ 0
          ∨ max 0 (n2 - u - ri.holdDurationMinutes.getD 0 * MS_PER_MINUTE) ≤ 0
    · have hP1 : (0 < ri.holdDurationMinutes.getD 0 * MS_PER_MINUTE ∧
            n1 - u < ri.holdDurationMinutes.getD 0 * MS_PER_MINUTE)
          ∨ (ri.holdDurationMinutes.getD 0 * MS_PER_MINUTE = 0 ∧ n1 - u < 0)
          ∨ ri.rampDurationMinutes.getD 0 ≤ 0
          ∨ max 0 (n1 - u - ri.holdDurationMinutes.getD 0 * MS_PER_MINUTE) ≤ 0 := by
        rcases hP2 with ⟨hH, hlt⟩ | ⟨hH, hlt⟩ | h | h
        · exact Or.inl ⟨hH, by linarith⟩
        · exact Or.inr (Or.inl ⟨hH, by linarith⟩)
        · exact Or.inr (Or.inr (Or.inl h))
        · refine Or.inr (Or.inr (Or.inr (max_le le_rfl ?_)))
          have h2 : n2 - u - ri.holdDurationMinutes.getD 0 * MS_PER_MINUTE ≤ 0 :=
            le_trans (le_max_right 0 _) h
          linarith
      rw [eff_base ri r u n1 hr hr100 hu hu0 hP1, eff_base ri r u n2 hr hr100 hu hu0 hP2]
    · by_cases hP1 : (0 < ri.holdDurationMinutes.getD 0 * MS_PER_MINUTE ∧
            n1 - u < ri.holdDurationMinutes.getD 0 * MS_PER_MINUTE)
          ∨ (ri.holdDurationMinutes.getD 0 * MS_PER_MINUTE = 0 ∧ n1 - u < 0)
          ∨ ri.rampDurationMinutes.getD 0 ≤ 0
          ∨ max 0 (n1 - u - ri.holdDurationMinutes.getD 0 * MS_PER_MINUTE) ≤ 0
      · rw [eff_base ri r u n1 hr hr100 hu hu0 hP1,
          eff_ramp ri r u n2 hr hr100 hu hu0 hP2]
        exact r_le_rampVal r _ h1
      · rw [eff_ramp ri r u n1 hr hr100 hu hu0 hP1,
          eff_ramp ri r u n2 hr hr100 hu hu0 hP2]
        have hRm : 0 < ri.rampDurationMinutes.getD 0 := by
          by_contra hc
          exact hP2 (Or.inr (Or.inr (Or.inl (le_of_not_lt hc))))
        have hE : max 0 (n1 - u - ri.holdDurationMinutes.getD 0 * MS_PER_MINUTE) ≤
            max 0 (n2 - u - ri.holdDurationMinutes.getD 0 * MS_PER_MINUTE) :=
          max_le_max le_rfl (by linarith)
        exact rampVal_mono r _ h1 (mul_pos hRm hms) hE
  · intro n hn
    apply eff_base ri r u n hr hr100 hu hu0
    refine Or.inr (Or.inr (Or.inr (max_le le_rfl ?_)))
    linarith
  · intro hRm n hn
    have hM : (0 : ℚ) < ri.rampDurationMinutes.getD 0 * MS_PER_MINUTE := mul_pos hRm hms
    have hE : ri.rampDurationMinutes.getD 0 * MS_PER_MINUTE ≤
        max 0 (n - u - ri.holdDurationMinutes.getD 0 * MS_PER_MINUTE) :=
      le_max_of_le_right (by linarith)
    rw [eff_ramp ri r u n hr hr100 hu hu0 ?hP]
    case hP =>
      rintro (⟨hH, hlt⟩ | ⟨hH, hlt⟩ | h | h)
      · linarith
      · linarith
      · linarith
      · linarith [le_trans hE h]
    have hone : min 1 (max 0 (n - u - ri.holdDurationMinutes.getD 0 * MS_PER_MINUTE) /
        (ri.rampDurationMinutes.getD 0 * MS_PER_MINUTE)) = 1 :=
      min_eq_left ((one_le_div hM).mpr hE)
    rw [hone]
    have hcomp : r + (100 - r) * 1 = 100 := by ring
    rw [hcomp]
    have hround : roundTo3 (100 : ℚ) = 100 := by
      norm_num [roundTo3, jsRound]
    rw [hround, max_eq_right h1, min_self]

/-- Tag characters recognized by the regex fragment `[\+\-]`. -/
def isTagChar (c : Char) : Bool := c == '+' || c == '-'

/-- The regex test `/^\d+$/`: non-empty and all ASCII digits. -/
def allDigits (l : List Char) : Bool := !l.isEmpty && l.all Char.isDigit

/-- The regex test `/^\d+\.\d+([\+\-].*)?$/`, decided by deterministic
digit-run parsing (a greedy digit run cannot backtrack into a dot or a
tag, so this parse is equivalent to the regex). -/
def matchesTwoSegments (l : List Char) : Bool :=
  !(l.takeWhile Char.isDigit).isEmpty &&
    (match l.dropWhile Char.isDigit with
     | c :: r2 =>
       c == '.' &&
         (!(r2.takeWhile Char.isDigit).isEmpty &&
           (match r2.dropWhile Char.isDigit with
            | [] => true
            | c2 :: _ => isTagChar c2))
     | [] => false)

/-- normalizeAppVersion from update-check-request, over character lists.
`version.search(/[+\-]/)` together with the two slices at the found index
is realized as takeWhile/dropWhile on the first tag character. -/
def normalizeAppVersionL (l : List Char) : List Char :=
  if l.isEmpty then l
  else if allDigits l then l ++ ('.' :: '0' :: '.' :: '0' :: [])
  else if matchesTwoSegments l then
    if (l.dropWhile (fun c => !isTagChar c)).isEmpty then l ++ ('.' :: '0' :: [])
    else l.takeWhile (fun c => !isTagChar c) ++ ('.' :: '0' :: []) ++
      l.dropWhile (fun c => !isTagChar c)
  else l

/-- normalizeAppVersion from update-check-request (empty input returned
unchanged, matching the falsy check on the version string). -/
def normalizeAppVersion (s : String) : String := String.mk (normalizeAppVersionL s.data)

lemma takeWhile_append_all {α} (p : α → Bool) (l r : List α) (h : l.all p = true) :
    (l ++ r).takeWhile p = l ++ r.takeWhile p := by
  induction l with
  | nil => simp
  | cons a t ih =>
    simp only [List.all_cons, Bool.and_eq_true] at h
    simp [List.takeWhile_cons, h.1, ih h.2]

lemma dropWhile_append_all {α} (p : α → Bool) (l r : List α) (h : l.all p = true) :
    (l ++ r).dropWhile p = r.dropWhile p := by
  induction l with
  | nil => simp
  | cons a t ih =>
    simp only [List.all_cons, Bool.and_eq_true] at h
    simp [List.dropWhile_cons, h.1, ih h.2]

lemma not_tag_of_digit (c : Char) (h : c.isDigit = true) : isTagChar c = false := by
  by_contra hc
  have htag : isTagChar c = true := by
    cases h2 : isTagChar c
    · exact absurd h2 hc
    · rfl
  unfold isTagChar at htag
  rcases Bool.or_eq_true_iff.mp htag with h3 | h3
  · rw [beq_iff_eq.mp h3] at h
    exact absurd h (by decide)
  · rw [beq_iff_eq.mp h3] at h
    exact absurd h (by decide)

lemma dot_not_digit : Char.isDigit '.' = false := by decide

lemma dot_not_tag : isTagChar '.' = false := by decide

lemma all_not_tag_of_all_digit (l : List Char) (h : l.all Char.isDigit = true) :
    l.all (fun c => !isTagChar c) = true := by
  rw [List.all_eq_true] at h ⊢
  intro x hx
  rw [not_tag_of_digit x (h x hx)]
  rfl

/-- Any list of shape digits ++ "." ++ digits ++ "." ++ anything fails both
regex tests and is returned unchanged by the normalizer. -/
lemma norm_fix_two_dots (d1 d2 rest : List Char)
    (h1 : d1 ≠ []) (h2 : d2 ≠ [])
    (ha1 : d1.all Char.isDigit = true) (ha2 : d2.all Char.isDigit = true) :
    normalizeAppVersionL (d1 ++ '.' :: (d2 ++ '.' :: rest)) = d1 ++ '.' :: (d2 ++ '.' :: rest) := by
  have hne : (d1 ++ '.' :: (d2 ++ '.' :: rest)).isEmpty = false := by
    cases d1 with
    | nil => exact absurd rfl h1
    | cons a t => rfl
  have hnotall : allDigits (d1 ++ '.' :: (d2 ++ '.' :: rest)) = false := by
    unfold allDigits
    rw [List.all_append]
    simp [dot_not_digit]
  have htake : (d1 ++ '.' :: (d2 ++ '.' :: rest)).takeWhile Char.isDigit = d1 := by
    rw [takeWhile_append_all Char.isDigit d1 _ ha1, List.takeWhile_cons]
    simp [dot_not_digit]
  have hdrop : (d1 ++ '.' :: (d2 ++ '.' :: rest)).dropWhile Char.isDigit =
      '.' :: (d2 ++ '.' :: rest) := by
    rw [dropWhile_append_all Char.isDigit d1 _ ha1, List.dropWhile_cons]
    simp [dot_not_digit]
  have htake2 : (d2 ++ '.' :: rest).takeWhile Char.isDigit = d2 := by
    rw [takeWhile_append_all Char.isDigit d2 _ ha2, List.takeWhile_cons]
    simp [dot_not_digit]
  have hdrop2 : (d2 ++ '.' :: rest).dropWhile Char.isDigit = '.' :: rest := by
    rw [dropWhile_append_all Char.isDigit d2 _ ha2, List.dropWhile_cons]
    simp [dot_not_digit]
  have hnotseg : matchesTwoSegments (d1 ++ '.' :: (d2 ++ '.' :: rest)) = false := by
    unfold matchesTwoSegments
    rw [htake, hdrop]
    simp [htake2, hdrop2, dot_not_tag]
  unfold normalizeAppVersionL
  rw [hne, hnotall, hnotseg]
  rfl

/-- The structure forced by a successful two-segment match. -/
lemma twoSeg_structure {l : List Char} (h : matchesTwoSegments l = true) :
    ∃ d1 d2 r3, l = d1 ++ '.' :: (d2 ++ r3) ∧ d1 ≠ [] ∧ d2 ≠ [] ∧
      d1.all Char.isDigit = true ∧ d2.all Char.isDigit = true ∧
      (r3 = [] ∨ ∃ c t, r3 = c :: t ∧ isTagChar c = true) := by
  unfold matchesTwoSegments at h
  rw [Bool.and_eq_true] at h
  obtain ⟨hd1, hrest⟩ := h
  rcases hr1 : l.dropWhile Char.isDigit with _ | ⟨c, r2⟩
  · rw [hr1] at hrest
    exact absurd hrest (by simp)
  · rw [hr1] at hrest
    simp only [Bool.and_eq_true, beq_iff_eq] at hrest
    obtain ⟨hc, hd2, hr3⟩ := hrest
    refine ⟨l.takeWhile Char.isDigit, r2.takeWhile Char.isDigit,
      r2.dropWhile Char.isDigit, ?_, ?_, ?_, ?_, ?_, ?_⟩
    · rw [List.takeWhile_append_dropWhile Char.isDigit r2,
        ← hc, ← hr1, List.takeWhile_append_dropWhile Char.isDigit l]
    · intro hnil
      rw [hnil] at hd1
      exact absurd hd1 (by simp)
    · intro hnil
      rw [hnil] at hd2
      exact absurd hd2 (by simp)
    · exact List.all_takeWhile
    · exact List.all_takeWhile
    · rcases hr3c : r2.dropWhile Char.isDigit with _ | ⟨c2, t⟩
      · exact Or.inl rfl
      · rw [hr3c] at hr3
        exact Or.inr ⟨c2, t, rfl, hr3⟩

lemma normL_not_matched (l : List Char) (hne : l.isEmpty = false)
    (hd : allDigits l = false) (hseg : matchesTwoSegments l = false) :
    normalizeAppVersionL l = l := by
  unfold normalizeAppVersionL
  rw [hne, hd, hseg]
  rfl

lemma normL_idem (l : List Char) :
    normalizeAppVersionL (normalizeAppVersionL l) = normalizeAppVersionL l := by
  rcases l with _ | ⟨a, t⟩
  · rfl
  have hne : (a :: t).isEmpty = false := rfl
  by_cases hd : allDigits (a :: t) = true
  · have hall : (a :: t).all Char.isDigit = true := by
      unfold allDigits at hd
      exact (Bool.and_eq_true _ _).mp hd |>.2
    have hout : normalizeAppVersionL (a :: t) = (a :: t) ++ ('.' :: '0' :: '.' :: '0' :: []) := by
      unfold normalizeAppVersionL
      rw [hne, hd]
      rfl
    rw [hout]
    exact norm_fix_two_dots (a :: t) ('0' :: []) ('0' :: []) (by simp) (by simp) hall (by decide)
  · have hdf : allDigits (a :: t) = false := Bool.eq_false_iff.mpr hd
    by_cases hseg : matchesTwoSegments (a :: t) = true
    · obtain ⟨d1, d2, r3, heq, h1, h2, ha1, ha2, hr3⟩ := twoSeg_structure hseg
      have hpre : (d1 ++ '.' :: d2).all (fun x => !isTagChar x) = true := by
        rw [List.all_append, List.all_cons]
        rw [all_not_tag_of_all_digit d1 ha1, all_not_tag_of_all_digit d2 ha2, dot_not_tag]
        rfl
      rcases hr3 with rfl | ⟨c, tt, rfl, htagc⟩
      · have hallnt : ((a :: t).all (fun x => !isTagChar x)) = true := by
          rw [heq, List.append_nil, List.all_append, List.all_cons]
          rw [all_not_tag_of_all_digit d1 ha1, all_not_tag_of_all_digit d2 ha2, dot_not_tag]
          rfl
        have hnotag : ((a :: t).dropWhile (fun x => !isTagChar x)).isEmpty = true := by
          rw [List.dropWhile_eq_nil_iff.mpr (List.all_eq_true.mp hallnt)]
          rfl
        have hout : normalizeAppVersionL (a :: t) = (a :: t) ++ ('.' :: '0' :: []) := by
          unfold normalizeAppVersionL
          rw [hne, hdf, hseg, hnotag]
          rfl
        rw [hout, heq, List.append_nil]
        have hshape : (d1 ++ '.' :: d2) ++ ('.' :: '0' :: []) =
            d1 ++ '.' :: (d2 ++ '.' :: ('0' :: [])) := by
          simp
        rw [hshape]
        exact norm_fix_two_dots d1 d2 ('0' :: []) h1 h2 ha1 ha2
      · have hassoc : (a : Char) :: t = (d1 ++ '.' :: d2) ++ c :: tt := by
          rw [heq]
          simp
        have htk : (a :: t).takeWhile (fun x => !isTagChar x) = d1 ++ '.' :: d2 := by
          rw [hassoc, takeWhile_append_all _ _ _ hpre, List.takeWhile_cons]
          simp [htagc]
        have hdr : (a :: t).dropWhile (fun x => !isTagChar x) = c :: tt := by
          rw [hassoc, dropWhile_append_all _ _ _ hpre, List.dropWhile_cons]
          simp [htagc]
        have hout : normalizeAppVersionL (a :: t) =
            (d1 ++ '.' :: d2) ++ ('.' :: '0' :: []) ++ (c :: tt) := by
          unfold normalizeAppVersionL
          rw [hne, hdf, hseg, hdr, htk]
          rfl
        rw [hout]
        have hshape : (d1 ++ '.' :: d2) ++ ('.' :: '0' :: []) ++ (c :: tt) =
            d1 ++ '.' :: (d2 ++ '.' :: ('0' :: c :: tt)) := by
          simp
        rw [hshape]
        exact norm_fix_two_dots d1 d2 ('0' :: c :: tt) h1 h2 ha1 ha2
    · have hsegf : matchesTwoSegments (a :: t) = false := Bool.eq_false_iff.mpr hseg
      have hout := normL_not_matched (a :: t) hne hdf hsegf
      rw [hout, hout]

/-- C9: normalizeAppVersion is idempotent on every version string, and is
the identity on every input already of three-segment digit form X.Y.Z. -/
theorem c9_normalize_idempotent :
    (∀ v : String, normalizeAppVersion (normalizeAppVersion v) = normalizeAppVersion v)
    ∧ ∀ x y z : List Char, x ≠ [] → y ≠ [] → z ≠ [] →
        x.all Char.isDigit = true → y.all Char.isDigit = true → z.all Char.isDigit = true →
        normalizeAppVersion (String.mk (x ++ '.' :: (y ++ '.' :: z))) =
          String.mk (x ++ '.' :: (y ++ '.' :: z)) := by
  constructor
  · intro v
    exact congrArg String.mk (normL_idem v.data)
  · intro x y z hx hy hz hax hay haz
    exact congrArg String.mk (norm_fix_two_dots x y z hx hy hax hay)

/-- C9 witness: the theorem applied to the concrete version 1.2.3. -/
theorem c9_witness :
    normalizeAppVersion (String.mk (('1' :: []) ++ '.' :: (('2' :: []) ++ '.' :: ('3' :: [])))) =
      String.mk (('1' :: []) ++ '.' :: (('2' :: []) ++ '.' :: ('3' :: []))) :=
  c9_normalize_idempotent.2 ('1' :: []) ('2' :: []) ('3' :: [])
    (by simp) (by simp) (by simp) (by decide) (by decide) (by decide)

/-- Query fields deleted by buildUpdateCheckCacheKey. -/
def droppedQueryKeys : List String :=
  "clientUniqueId" :: "client_unique_id" :: "beta" :: "packageHash" :: "package_hash" ::
    "label" :: []

/-- Property lookup on a parsed query object (first binding wins). -/
def assocFind {α} (q : List (String × α)) (k : String) : Option α :=
  match q.find? (fun kv => kv.1 == k) with
  | some kv => some kv.2
  | none => none

/-- JavaScript truthiness of a query value: present and non-empty. -/
def truthyValue (o : Option String) : Option String :=
  match o with
  | some v => if v = "" then none else some v
  | none => none

/-- In-place assignment `obj.query[k] = v` for an existing key. -/
def setQueryValue (q : List (String × String)) (k v : String) : List (String × String) :=
  q.map (fun kv => if kv.1 == k then (k, v) else kv)

/-- Assignment `obj.query[k] = v`: overwrite in place when the key exists,
otherwise append (JavaScript object insertion order). -/
def appendQueryKey (q : List (String × String)) (k v : String) : List (String × String) :=
  if (q.find? (fun kv => kv.1 == k)).isSome then setQueryValue q k v else q ++ ((k, v) :: [])

/-- querystring.stringify over the ordered query pairs. -/
def stringifyQuery (q : List (String × String)) : String :=
  String.intercalate "&" (q.map (fun kv => kv.1 ++ "=" ++ kv.2))

/-- The six `delete obj.query...` statements of buildUpdateCheckCacheKey. -/
def filterDroppedQuery (query : List (String × String)) : List (String × String) :=
  query.filter (fun kv => !droppedQueryKeys.contains kv.1)

/-- The appVersion/app_version normalization step of buildUpdateCheckCacheKey:
`rawAppVersion = obj.query.appVersion || obj.query.app_version`, and each of
the two fields that is truthy is overwritten with the normalized version. -/
def normalizeQueryAppVersion (q1 : List (String × String)) : List (String × String) :=
  match
    (match truthyValue (assocFind q1 "appVersion") with
     | some v => some v
     | none => truthyValue (assocFind q1 "app_version")) with
  | none => q1
  | some raw =>
    let normalized := normalizeAppVersion raw
    let qa := if (truthyValue (assocFind q1 "appVersion")).isSome
      then setQueryValue q1 "appVersion" normalized else q1
    if (truthyValue (assocFind qa "app_version")).isSome
      then setQueryValue qa "app_version" normalized else qa

/-- `if (cacheSchema) obj.query.__cacheSchema = cacheSchema`. -/
def appendCacheSchema (q2 : List (String × String)) (cacheSchema : Option String) :
    List (String × String) :=
  match cacheSchema with
  | some cs => if cs = "" then q2 else appendQueryKey q2 "__cacheSchema" cs
  | none => q2

/-- buildUpdateCheckCacheKey from update-check-request, over the parsed
pathname and ordered query pairs of originalUrl: delete the
client-identifying and non-selecting fields, normalize the app version,
append the cache-schema token, and re-serialize. -/
def buildUpdateCheckCacheKey (pathname : String) (query : List (String × String))
    (cacheSchema : Option String) : String :=
  pathname ++ "?" ++
    stringifyQuery (appendCacheSchema (normalizeQueryAppVersion (filterDroppedQuery query))
      cacheSchema)

lemma find?_append_none {α} (p : α → Bool) (A B : List α) (h : ∀ x ∈ A, p x = false) :
    (A ++ B).find? p = B.find? p := by
  induction A with
  | nil => rfl
  | cons a t ih =>
    rw [List.cons_append, List.find?_cons]
    simp [h a (List.mem_cons_self a t), ih (fun x hx => h x (List.mem_cons_of_mem a hx))]

lemma assocFind_middle (A B : List (String × String)) (v : String)
    (h : ∀ kv ∈ A, (kv.1 == "appVersion") = false) :
    assocFind (A ++ ("appVersion", v) :: B) "appVersion" = some v := by
  unfold assocFind
  rw [find?_append_none _ A _ h, List.find?_cons]
  simp

lemma setQueryValue_middle (A B : List (String × String)) (v n : String) :
    setQueryValue (A ++ ("appVersion", v) :: B) "appVersion" n =
      setQueryValue A "appVersion" n ++ ("appVersion", n) :: setQueryValue B "appVersion" n := by
  unfold setQueryValue
  rw [List.map_append, List.map_cons]
  simp

lemma truthyValue_some {v : String} (hv : v ≠ "") : truthyValue (some v) = some v := by
  simp [truthyValue, hv]

lemma normalizeQueryAppVersion_middle (A B : List (String × String)) (v : String)
    (h : ∀ kv ∈ A, (kv.1 == "appVersion") = false) (hv : v ≠ "") :
    normalizeQueryAppVersion (A ++ ("appVersion", v) :: B) =
      (if (truthyValue (assocFind
            (setQueryValue (A ++ ("appVersion", v) :: B) "appVersion" (normalizeAppVersion v))
            "app_version")).isSome = true
       then setQueryValue
            (setQueryValue (A ++ ("appVersion", v) :: B) "appVersion" (normalizeAppVersion v))
            "app_version" (normalizeAppVersion v)
       else setQueryValue (A ++ ("appVersion", v) :: B) "appVersion" (normalizeAppVersion v)) := by
  unfold normalizeQueryAppVersion
  rw [assocFind_middle _ _ _ h, truthyValue_some hv]
  simp

/-- C6: the cache key ignores the dropped query fields (clientUniqueId,
client_unique_id, beta, packageHash, package_hash, label), and appVersion
values 2 and 2.0.0 produce identical keys. -/
theorem c6_cache_key_invariance :
    (∀ (pathname : String) (query1 query2 : List (String × String)) (cacheSchema : Option String),
        filterDroppedQuery query1 = filterDroppedQuery query2 →
        buildUpdateCheckCacheKey pathname query1 cacheSchema =
          buildUpdateCheckCacheKey pathname query2 cacheSchema)
    ∧ ∀ (pathname : String) (pre post : List (String × String)) (cacheSchema : Option String),
        (∀ kv ∈ pre, kv.1 ≠ "appVersion") →
        buildUpdateCheckCacheKey pathname (pre ++ ("appVersion", "2") :: post) cacheSchema =
          buildUpdateCheckCacheKey pathname (pre ++ ("appVersion", "2.0.0") :: post) cacheSchema := by
  constructor
  · intro pathname query1 query2 cacheSchema h
    unfold buildUpdateCheckCacheKey
    rw [h]
  · intro pathname pre post cacheSchema hpre
    unfold buildUpdateCheckCacheKey
    have hfil : ∀ w : String, filterDroppedQuery (pre ++ ("appVersion", w) :: post) =
        filterDroppedQuery pre ++ ("appVersion", w) :: filterDroppedQuery post := by
      intro w
      unfold filterDroppedQuery
      rw [List.filter_append, List.filter_cons]
      have hk : "appVersion" ∉ droppedQueryKeys := by decide
      simp [hk]
    rw [hfil "2", hfil "2.0.0"]
    have hprefil : ∀ kv ∈ filterDroppedQuery pre, (kv.1 == "appVersion") = false := by
      intro kv hkv
      have hmem : kv ∈ pre := List.mem_of_mem_filter hkv
      exact beq_eq_false_iff_ne.mpr (hpre kv hmem)
    have hn1 : normalizeAppVersion "2" = "2.0.0" := by decide
    have hn2 : normalizeAppVersion "2.0.0" = "2.0.0" := by decide
    have hqa : setQueryValue
          (filterDroppedQuery pre ++ ("appVersion", "2") :: filterDroppedQuery post)
          "appVersion" "2.0.0" =
        setQueryValue
          (filterDroppedQuery pre ++ ("appVersion", "2.0.0") :: filterDroppedQuery post)
          "appVersion" "2.0.0" := by
      rw [setQueryValue_middle, setQueryValue_middle]
    rw [normalizeQueryAppVersion_middle _ _ "2" hprefil (by decide),
      normalizeQueryAppVersion_middle _ _ "2.0.0" hprefil (by decide), hn1, hn2, hqa]

/-- C6 witness: two concrete query lists differing only in clientUniqueId
versus beta produce the same key, and appVersion 2 versus 2.0.0 produce
the same key. -/
theorem c6_witness :
    (buildUpdateCheckCacheKey "/updateCheck"
        (("deploymentKey", "k1") :: ("appVersion", "1.2.3") :: ("clientUniqueId", "c1") :: [])
        (some "v2") =
      buildUpdateCheckCacheKey "/updateCheck"
        (("deploymentKey", "k1") :: ("beta", "true") :: ("appVersion", "1.2.3") :: [])
        (some "v2"))
    ∧ (buildUpdateCheckCacheKey "/updateCheck"
        (("deploymentKey", "k1") :: ("appVersion", "2") :: []) (some "v2") =
      buildUpdateCheckCacheKey "/updateCheck"
        (("deploymentKey", "k1") :: ("appVersion", "2.0.0") :: []) (some "v2")) :=
  ⟨c6_cache_key_invariance.1 "/updateCheck" _ _ (some "v2") (by decide),
    c6_cache_key_invariance.2 "/updateCheck" (("deploymentKey", "k1") :: []) [] (some "v2")
      (by decide)⟩

/-- Blob info of a diff-package entry: `{size, url}`. -/
structure BlobInfo where
  size : ℚ
  url : String
deriving DecidableEq

/-- CachedRelease from rest-definitions.  Optional booleans are modelled by
their truthiness (absent = false); the optional label string by its
truthiness (absent = empty). -/
structure CachedRelease where
  appVersion : String
  blobUrl : String
  description : Option String := none
  isDisabled : Bool := false
  isMandatory : Bool := false
  label : String := ""
  packageHash : String
  size : ℚ
  rollout : Option ℚ := none
  rolloutHoldDurationMinutes : Option ℚ := none
  rolloutRampDurationMinutes : Option ℚ := none
  rolloutUploadTime : Option ℚ := none
deriving DecidableEq

/-- UpdateCheckCacheResponse from rest-definitions; array entries may be
null, hence the Option elements. -/
structure UpdateCheckCacheResponse where
  releases : List (Option CachedRelease)
deriving DecidableEq

/-- CacheableResponse from redis-manager. -/
structure CacheableResponse where
  statusCode : ℕ
  body : UpdateCheckCacheResponse
deriving DecidableEq

/-- UpdateCheckResponse from rest-definitions. -/
structure UpdateCheckResponse where
  downloadURL : Option String := none
  description : Option String := none
  isAvailable : Bool
  isMandatory : Bool := false
  appVersion : String
  packageHash : Option String := none
  label : Option String := none
  packageSize : Option ℚ := none
  updateAppVersion : Bool := false
  target_binary_range : Option String := none
deriving DecidableEq

/-- Package from the storage layer (the fields read by the acquisition
path). -/
structure Package where
  appVersion : String
  blobUrl : String
  description : Option String := none
  isDisabled : Bool := false
  isMandatory : Bool := false
  label : String := ""
  packageHash : String
  size : ℚ
  rollout : Option ℚ := none
  holdDurationMinutes : Option ℚ := none
  rampDurationMinutes : Option ℚ := none
  uploadTime : ℚ
  diffPackageMap : List (String × BlobInfo) := []
deriving DecidableEq

/-- UpdateCheckRequest from rest-definitions (fields used by
getUpdatePackageInfo). -/
structure UpdateCheckRequest where
  appVersion : String
  deploymentKey : String
  isCompanion : Bool := false
  label : String := ""
  packageHash : String := ""
deriving DecidableEq

/-- convertToCachedRelease from acquisition. -/
def convertToCachedRelease (pkg : Package) : CachedRelease :=
  { appVersion := pkg.appVersion
    blobUrl := pkg.blobUrl
    description := pkg.description
    isDisabled := pkg.isDisabled
    isMandatory := pkg.isMandatory
    label := pkg.label
    packageHash := pkg.packageHash
    size := pkg.size
    rollout := pkg.rollout
    rolloutHoldDurationMinutes := pkg.holdDurationMinutes
    rolloutRampDurationMinutes := pkg.rampDurationMinutes
    rolloutUploadTime := some pkg.uploadTime }

/-- getUpdatePackageInfo from acquisition: walk the package history from
the last (newest) entry down to the first, pushing every release that the
request's normalized binary version satisfies (or every release for a
companion app).  semver.satisfies is an external library, passed in as a
parameter. -/
def getUpdatePackageInfo (satisfies : String → String → Bool)
    (packageHistory : List Package) (request : UpdateCheckRequest) : UpdateCheckCacheResponse :=
  { releases :=
      (packageHistory.reverse.filter (fun pkg =>
        request.isCompanion ||
          satisfies (normalizeAppVersion request.appVersion) pkg.appVersion)).map
        (fun pkg => some (convertToCachedRelease pkg)) }

/-- The parsed request fields and external collaborators consumed by
buildUpdateCheckBody: the proxyBlobUrl rewrite (a function of the
configured proxy URL) and semver.satisfies are passed as functions, and
the clock is explicit. -/
structure UpdateCheckParams where
  clientUniqueId : String
  betaRequested : Bool
  requestLabel : String
  requestPackageHash : String
  rawAppVersion : String
  normalizedAppVersion : String
  requestIsCompanion : Bool
  now : ℚ
  satisfies : String → String → Bool
  proxy : String → String

/-- createUpdateInfoFromRelease from acquisition (downloadURL goes through
proxyBlobUrl; target_binary_range is set right after construction). -/
def createUpdateInfoFromRelease (p : UpdateCheckParams) (release : CachedRelease) :
    UpdateCheckResponse :=
  { downloadURL := some (p.proxy release.blobUrl)
    description := release.description
    isAvailable := !release.isDisabled
    isMandatory := release.isMandatory
    appVersion := release.appVersion
    packageHash := some release.packageHash
    label := some release.label
    packageSize := some release.size
    updateAppVersion := false
    target_binary_range := some release.appVersion }

/-- applyDiffPayload from acquisition. -/
def applyDiffPayload (proxy : String → String) (updateInfo : UpdateCheckResponse)
    (diffMap : Option (List (String × BlobInfo))) (requestPackageHash : String) :
    UpdateCheckResponse :=
  if requestPackageHash = "" then updateInfo
  else
    match diffMap with
    | none => updateInfo
    | some dm =>
      match assocFind dm requestPackageHash with
      | some diff =>
        { updateInfo with downloadURL := some (proxy diff.url), packageSize := some diff.size }
      | none => updateInfo

/-- isClientPackage from acquisition. -/
def isClientPackage (release : CachedRelease) (requestLabel requestPackageHash : String) : Bool :=
  if requestLabel ≠ "" then release.label == requestLabel
  else requestPackageHash ≠ "" && release.packageHash == requestPackageHash

/-- isClientSelectedForRollout from acquisition. -/
def isClientSelectedForRollout (release : CachedRelease) (clientUniqueId : String)
    (releaseKey : String) (now : ℚ) : Bool :=
  if clientUniqueId = "" || release.rollout == none then false
  else
    isSelectedForRollout clientUniqueId
      (getEffectiveRollout
        { rollout := release.rollout
          holdDurationMinutes := release.rolloutHoldDurationMinutes
          rampDurationMinutes := release.rolloutRampDurationMinutes
          uploadTime := release.rolloutUploadTime } now)
      releaseKey

/-- buildNoUpdateResponse from acquisition. -/
def buildNoUpdateResponse (rawAppVersion normalizedAppVersion : String) : UpdateCheckResponse :=
  { isAvailable := false
    appVersion := if rawAppVersion ≠ "" then rawAppVersion else normalizedAppVersion
    updateAppVersion := false }

/-- The loop state of buildUpdateCheckBody: the current candidate
(selectedUpdate and selectedRelease together), forceMandatory and
pendingMandatory. -/
structure LoopState where
  selected : Option (UpdateCheckResponse × CachedRelease)
  forceMandatory : Bool
  pendingMandatory : Bool

def initLoopState : LoopState :=
  { selected := none, forceMandatory := false, pendingMandatory := false }

/-- Outcome of the release walk: either the early/no-candidate no-update
answer, or a selected candidate with its forceMandatory flag. -/
inductive WalkResult
  | noUpd : WalkResult
  | sel : UpdateCheckResponse → CachedRelease → Bool → WalkResult

/-- The release-applicability test of buildUpdateCheckBody. -/
def releaseApplies (p : UpdateCheckParams) (release : CachedRelease) : Bool :=
  p.requestIsCompanion ||
    (p.normalizedAppVersion ≠ "" && p.satisfies p.normalizedAppVersion release.appVersion)

/-- The rollout key of a release: `release.label || release.packageHash`. -/
def releaseRolloutKey (release : CachedRelease) : String :=
  if release.label ≠ "" then release.label else release.packageHash

/-- One iteration of the release loop of buildUpdateCheckBody: either an
early return (Sum.inl) or the next loop state (Sum.inr). -/
def stepRelease (p : UpdateCheckParams) (s : LoopState) (orel : Option CachedRelease) :
    WalkResult ⊕ LoopState :=
  match orel with
  | none => Sum.inr s
  | some release =>
    if isClientPackage release p.requestLabel p.requestPackageHash && release.isDisabled then
      Sum.inr s
    else if isClientPackage release p.requestLabel p.requestPackageHash then
      match s.selected with
      | some (u, rel) => Sum.inl (WalkResult.sel u rel s.forceMandatory)
      | none => Sum.inl WalkResult.noUpd
    else if release.isDisabled then Sum.inr s
    else if !releaseApplies p release then Sum.inr s
    else
      match s.selected with
      | some _ =>
        if release.isMandatory then Sum.inr { s with forceMandatory := true } else Sum.inr s
      | none =>
        if !isUnfinishedRollout release.rollout || (p.betaRequested ||
            isClientSelectedForRollout release p.clientUniqueId
              (releaseRolloutKey release) p.now) then
          Sum.inr
            { selected := some (createUpdateInfoFromRelease p release, release)
              forceMandatory := s.pendingMandatory || release.isMandatory
              pendingMandatory := s.pendingMandatory }
        else if release.isMandatory then Sum.inr { s with pendingMandatory := true }
        else Sum.inr s

/-- The release loop, stopping at the first early return. -/
def walkSt (p : UpdateCheckParams) (s : LoopState) :
    List (Option CachedRelease) → WalkResult ⊕ LoopState
  | [] => Sum.inr s
  | orel :: rest =>
    match stepRelease p s orel with
    | Sum.inl r => Sum.inl r
    | Sum.inr s2 => walkSt p s2 rest

/-- The answer produced when the loop runs off the end of the list. -/
def finishWalk (s : LoopState) : WalkResult :=
  match s.selected with
  | some (u, rel) => WalkResult.sel u rel s.forceMandatory
  | none => WalkResult.noUpd

/-- The complete release walk of buildUpdateCheckBody. -/
def walk (p : UpdateCheckParams) (s : LoopState) (releases : List (Option CachedRelease)) :
    WalkResult :=
  match walkSt p s releases with
  | Sum.inl r => r
  | Sum.inr s2 => finishWalk s2

/-- An abstract I/O failure of the distributed cache. -/
inductive RedisErr
  | err : ℕ → RedisErr
deriving DecidableEq

/-- hydrateDiffPayloadForRelease from acquisition: fetch the selected
release's diff map and apply it; any fetch failure is caught and the
update info is returned untouched. -/
def hydrateDiffPayloadForRelease (proxy : String → String) (updateInfo : UpdateCheckResponse)
    (release : CachedRelease) (requestPackageHash : String)
    (diffMapFetcher : String → Except RedisErr (Option (List (String × BlobInfo)))) :
    UpdateCheckResponse :=
  if requestPackageHash = "" then updateInfo
  else
    match diffMapFetcher release.packageHash with
    | Except.error _ => updateInfo
    | Except.ok none => updateInfo
    | Except.ok (some dm) => applyDiffPayload proxy updateInfo (some dm) requestPackageHash

/-- finalizeUpdateCheckResponse from acquisition. -/
def finalizeUpdateCheckResponse (updateInfo : UpdateCheckResponse) (release : CachedRelease)
    (forceMandatory : Bool) (rawAppVersion normalizedAppVersion : String) : UpdateCheckResponse :=
  let u1 := if forceMandatory then { updateInfo with isMandatory := true } else updateInfo
  { u1 with
      target_binary_range := some release.appVersion
      appVersion := if rawAppVersion ≠ "" then rawAppVersion else normalizedAppVersion }

/-- buildUpdateCheckBody from acquisition, as the release walk followed by
diff hydration and finalization (both return paths build the same
no-update answer). -/
def buildUpdateCheckBody (p : UpdateCheckParams)
    (diffMapFetcher : String → Except RedisErr (Option (List (String × BlobInfo))))
    (response : CacheableResponse) : UpdateCheckResponse :=
  match walk p initLoopState response.body.releases with
  | WalkResult.noUpd =>
    let noUpdate := buildNoUpdateResponse p.rawAppVersion p.normalizedAppVersion
    { noUpdate with target_binary_range := some noUpdate.appVersion }
  | WalkResult.sel u rel fm =>
    finalizeUpdateCheckResponse
      (hydrateDiffPayloadForRelease p.proxy u rel p.requestPackageHash diffMapFetcher)
      rel fm p.rawAppVersion p.normalizedAppVersion

lemma walkSt_append (p : UpdateCheckParams) (l1 l2 : List (Option CachedRelease)) :
    ∀ s, walkSt p s (l1 ++ l2) =
      match walkSt p s l1 with
      | Sum.inl r => Sum.inl r
      | Sum.inr s2 => walkSt p s2 l2 := by
  induction l1 with
  | nil => intro s; rfl
  | cons o t ih =>
    intro s
    rw [List.cons_append]
    rcases hstep : stepRelease p s o with r | s2
    · simp only [walkSt, hstep]
    · simp only [walkSt, hstep]
      exact ih s2

lemma walk_append (p : UpdateCheckParams) (l1 l2 : List (Option CachedRelease)) (s : LoopState) :
    walk p s (l1 ++ l2) =
      match walkSt p s l1 with
      | Sum.inl r => r
      | Sum.inr s2 => walk p s2 l2 := by
  unfold walk
  rw [walkSt_append p l1 l2 s]
  cases walkSt p s l1 with
  | inl r => rfl
  | inr s2 => rfl

lemma isClientSelectedForRollout_empty (release : CachedRelease) (key : String) (now : ℚ) :
    isClientSelectedForRollout release "" key now = false := by
  simp [isClientSelectedForRollout]

/-- Exhaustive description of the continue-transitions of the release loop. -/
lemma stepRelease_inr_cases (p : UpdateCheckParams) (s : LoopState) (orel : Option CachedRelease)
    (s2 : LoopState) (h : stepRelease p s orel = Sum.inr s2) :
    s2 = s
    ∨ (∃ rel, orel = some rel ∧ s2 = { s with forceMandatory := true })
    ∨ (∃ rel, orel = some rel ∧ s.selected = none ∧ rel.isMandatory = true ∧
        s2 = { s with pendingMandatory := true })
    ∨ (∃ rel, orel = some rel ∧ s.selected = none ∧
        (!isUnfinishedRollout rel.rollout || (p.betaRequested ||
          isClientSelectedForRollout rel p.clientUniqueId (releaseRolloutKey rel) p.now)) =
            true ∧
        s2 = { selected := some (createUpdateInfoFromRelease p rel, rel)
               forceMandatory := s.pendingMandatory || rel.isMandatory
               pendingMandatory := s.pendingMandatory }) := by
  cases orel with
  | none =>
    left
    simp only [stepRelease] at h
    exact (Sum.inr.inj h).symm
  | some rel =>
    simp only [stepRelease] at h
    split at h
    · left; exact (Sum.inr.inj h).symm
    · split at h
      · split at h <;> exact Sum.noConfusion h
      · split at h
        · left; exact (Sum.inr.inj h).symm
        · split at h
          · left; exact (Sum.inr.inj h).symm
          · split at h
            · split at h
              · right; left
                exact ⟨rel, rfl, (Sum.inr.inj h).symm⟩
              · left; exact (Sum.inr.inj h).symm
            · rename_i hsel
              split at h
              · rename_i hchosen
                right; right; right
                exact ⟨rel, rfl, hsel, hchosen, (Sum.inr.inj h).symm⟩
              · split at h
                · rename_i hmand
                  right; right; left
                  exact ⟨rel, rfl, hsel, hmand, (Sum.inr.inj h).symm⟩
                · left; exact (Sum.inr.inj h).symm

/-- Early returns of the release loop come from the current-release check:
a selected early return carries the already-selected candidate. -/
lemma stepRelease_inl_cases (p : UpdateCheckParams) (s : LoopState) (orel : Option CachedRelease)
    (r : WalkResult) (h : stepRelease p s orel = Sum.inl r) :
    (∃ u rel, s.selected = some (u, rel) ∧ r = WalkResult.sel u rel s.forceMandatory)
    ∨ (s.selected = none ∧ r = WalkResult.noUpd) := by
  cases orel with
  | none =>
    simp only [stepRelease] at h
    exact Sum.noConfusion h
  | some rel =>
    simp only [stepRelease] at h
    split at h
    · exact Sum.noConfusion h
    · split at h
      · split at h
        · rename_i u rl hsel
          left
          exact ⟨u, rl, hsel, (Sum.inl.inj h).symm⟩
        · rename_i hsel
          right
          exact ⟨hsel, (Sum.inl.inj h).symm⟩
      · split at h
        · exact Sum.noConfusion h
        · split at h
          · exact Sum.noConfusion h
          · split at h
            · split at h <;> exact Sum.noConfusion h
            · split at h
              · exact Sum.noConfusion h
              · split at h <;> exact Sum.noConfusion h

/-- Once a candidate is selected, the walk returns exactly that candidate. -/
lemma walk_selected_stable (p : UpdateCheckParams) :
    ∀ (l : List (Option CachedRelease)) (s : LoopState) (u : UpdateCheckResponse)
      (rel : CachedRelease), s.selected = some (u, rel) →
      ∃ fm, walk p s l = WalkResult.sel u rel fm := by
  intro l
  induction l with
  | nil =>
    intro s u rel hsel
    refine ⟨s.forceMandatory, ?_⟩
    simp [walk, walkSt, finishWalk, hsel]
  | cons o t ih =>
    intro s u rel hsel
    rcases hstep : stepRelease p s o with r | s2
    · rcases stepRelease_inl_cases p s o r hstep with ⟨u2, rel2, hsel2, hr⟩ | ⟨hnone, hr⟩
      · rw [hsel] at hsel2
        obtain ⟨h1, h2⟩ := Prod.mk.injEq .. ▸ Option.some.inj hsel2
        refine ⟨s.forceMandatory, ?_⟩
        simp only [walk, walkSt, hstep]
        rw [hr, h1, h2]
      · rw [hnone] at hsel
        exact Option.noConfusion hsel
    · have hsel2 : s2.selected = some (u, rel) := by
        rcases stepRelease_inr_cases p s o s2 hstep with heq | ⟨r2, _, heq⟩ |
          ⟨r2, _, hnone, _, heq⟩ | ⟨r2, _, hnone, _, heq⟩
        · rw [heq, hsel]
        · rw [heq]
          exact hsel
        · rw [hnone] at hsel
          exact Option.noConfusion hsel
        · rw [hnone] at hsel
          exact Option.noConfusion hsel
      obtain ⟨fm, hfm⟩ := ih s2 u rel hsel2
      refine ⟨fm, ?_⟩
      simp only [walk, walkSt, hstep]
      simpa [walk] using hfm

/-- The candidate returned by the walk was built by createUpdateInfoFromRelease. -/
lemma walk_sel_create (p : UpdateCheckParams) :
    ∀ (l : List (Option CachedRelease)) (s : LoopState)
      (u : UpdateCheckResponse) (rel : CachedRelease) (fm : Bool),
      (∀ u0 r0, s.selected = some (u0, r0) → u0 = createUpdateInfoFromRelease p r0) →
      walk p s l = WalkResult.sel u rel fm → u = createUpdateInfoFromRelease p rel := by
  intro l
  induction l with
  | nil =>
    intro s u rel fm hinv hw
    simp only [walk, walkSt, finishWalk] at hw
    rcases hsel : s.selected with _ | ⟨u0, r0⟩
    · rw [hsel] at hw
      exact WalkResult.noConfusion hw
    · rw [hsel] at hw
      obtain ⟨h1, h2, _⟩ := WalkResult.sel.inj hw
      rw [← h1, ← h2]
      exact hinv u0 r0 hsel
  | cons o t ih =>
    intro s u rel fm hinv hw
    rcases hstep : stepRelease p s o with r | s2
    · simp only [walk, walkSt, hstep] at hw
      rcases stepRelease_inl_cases p s o r hstep with ⟨u2, rel2, hsel2, hr⟩ | ⟨_, hr⟩
      · rw [hr] at hw
        obtain ⟨h1, h2, _⟩ := WalkResult.sel.inj hw
        rw [← h1, ← h2]
        exact hinv u2 rel2 hsel2
      · rw [hr] at hw
        exact WalkResult.noConfusion hw
    · simp only [walk, walkSt, hstep] at hw
      refine ih s2 u rel fm ?_ (by simpa [walk] using hw)
      intro u0 r0 hsel0
      rcases stepRelease_inr_cases p s o s2 hstep with heq | ⟨r2, _, heq⟩ |
        ⟨r2, _, hnone, _, heq⟩ | ⟨r2, _, hnone, hch, heq⟩
      · rw [heq] at hsel0
        exact hinv u0 r0 hsel0
      · rw [heq] at hsel0
        exact hinv u0 r0 hsel0
      · rw [heq] at hsel0
        exact hinv u0 r0 hsel0
      · rw [heq] at hsel0
        obtain ⟨h1, h2⟩ := Prod.mk.injEq .. ▸ Option.some.inj hsel0
        rw [← h1, ← h2]

/-- With an empty clientUniqueId and no beta flag, any release ever
selected by the walk has a finished (or absent) rollout. -/
lemma walk_no_rollout_selection (p : UpdateCheckParams)
    (hc : p.clientUniqueId = "") (hb : p.betaRequested = false) :
    ∀ (l : List (Option CachedRelease)) (s : LoopState)
      (u : UpdateCheckResponse) (rel : CachedRelease) (fm : Bool),
      (∀ u0 r0, s.selected = some (u0, r0) → isUnfinishedRollout r0.rollout = false) →
      walk p s l = WalkResult.sel u rel fm → isUnfinishedRollout rel.rollout = false := by
  intro l
  induction l with
  | nil =>
    intro s u rel fm hinv hw
    simp only [walk, walkSt, finishWalk] at hw
    rcases hsel : s.selected with _ | ⟨u0, r0⟩
    · rw [hsel] at hw
      exact WalkResult.noConfusion hw
    · rw [hsel] at hw
      obtain ⟨_, h2, _⟩ := WalkResult.sel.inj hw
      rw [← h2]
      exact hinv u0 r0 hsel
  | cons o t ih =>
    intro s u rel fm hinv hw
    rcases hstep : stepRelease p s o with r | s2
    · simp only [walk, walkSt, hstep] at hw
      rcases stepRelease_inl_cases p s o r hstep with ⟨u2, rel2, hsel2, hr⟩ | ⟨_, hr⟩
      · rw [hr] at hw
        obtain ⟨_, h2, _⟩ := WalkResult.sel.inj hw
        rw [← h2]
        exact hinv u2 rel2 hsel2
      · rw [hr] at hw
        exact WalkResult.noConfusion hw
    · simp only [walk, walkSt, hstep] at hw
      refine ih s2 u rel fm ?_ (by simpa [walk] using hw)
      intro u0 r0 hsel0
      rcases stepRelease_inr_cases p s o s2 hstep with heq | ⟨r2, _, heq⟩ |
        ⟨r2, _, hnone, _, heq⟩ | ⟨r2, _, hnone, hch, heq⟩
      · rw [heq] at hsel0
        exact hinv u0 r0 hsel0
      · rw [heq] at hsel0
        exact hinv u0 r0 hsel0
      · rw [heq] at hsel0
        exact hinv u0 r0 hsel0
      · rw [heq] at hsel0
        obtain ⟨h1, h2⟩ := Prod.mk.injEq .. ▸ Option.some.inj hsel0
        rw [hc, hb, isClientSelectedForRollout_empty] at hch
        rcases hroll : isUnfinishedRollout r2.rollout with _ | _
        · rw [← h2]
          exact hroll
        · rw [hroll] at hch
          exact absurd hch (by simp)

/-- C10: a request with an empty clientUniqueId and betaRequested false can
only ever be answered from a release whose rollout is absent or 100:
isClientSelectedForRollout is false for an empty client id, so the walk of
buildUpdateCheckBody skips every unfinished-rollout release. -/
theorem c10_empty_client_skips_rollouts (p : UpdateCheckParams)
    (releases : List (Option CachedRelease)) (u : UpdateCheckResponse)
    (rel : CachedRelease) (fm : Bool)
    (hc : p.clientUniqueId = "") (hb : p.betaRequested = false)
    (hw : walk p initLoopState releases = WalkResult.sel u rel fm) :
    isUnfinishedRollout rel.rollout = false ∧
      isClientSelectedForRollout rel "" (releaseRolloutKey rel) p.now = false :=
  ⟨walk_no_rollout_selection p hc hb releases initLoopState u rel fm
      (fun _ _ h => Option.noConfusion h) hw,
    isClientSelectedForRollout_empty rel (releaseRolloutKey rel) p.now⟩

/-- A fully-rolled-out concrete release and a companion request with empty
client id, used by the concrete walk witnesses. -/
def walkRelease : CachedRelease :=
  { appVersion := "1.0.0", blobUrl := "https://blob/v1", packageHash := "H1", size := 10 }

def walkParams : UpdateCheckParams :=
  { clientUniqueId := "", betaRequested := false, requestLabel := "",
    requestPackageHash := "", rawAppVersion := "1.0.0", normalizedAppVersion := "1.0.0",
    requestIsCompanion := true, now := 0, satisfies := fun _ _ => true, proxy := fun url => url }

theorem c10_witness :
    isUnfinishedRollout walkRelease.rollout = false ∧
      isClientSelectedForRollout walkRelease "" (releaseRolloutKey walkRelease) walkParams.now =
        false :=
  c10_empty_client_skips_rollouts walkParams (some walkRelease :: [])
    (createUpdateInfoFromRelease walkParams walkRelease) walkRelease false rfl rfl rfl

/-- The mandatory latch: from a state with a pending mandatory skip and no
candidate yet (or an already-forced candidate), any selected outcome of
the walk carries forceMandatory = true. -/
lemma walk_pending_mandatory (p : UpdateCheckParams) :
    ∀ (l : List (Option CachedRelease)) (s : LoopState)
      (u : UpdateCheckResponse) (rel : CachedRelease) (fm : Bool),
      ((s.selected = none ∧ s.pendingMandatory = true) ∨
        (s.selected ≠ none ∧ s.forceMandatory = true)) →
      walk p s l = WalkResult.sel u rel fm → fm = true := by
  intro l
  induction l with
  | nil =>
    intro s u rel fm hP hw
    simp only [walk, walkSt, finishWalk] at hw
    rcases hsel : s.selected with _ | ⟨u0, r0⟩
    · rw [hsel] at hw
      exact WalkResult.noConfusion hw
    · rw [hsel] at hw
      obtain ⟨_, _, h3⟩ := WalkResult.sel.inj hw
      rcases hP with ⟨hnone, _⟩ | ⟨_, hforce⟩
      · rw [hsel] at hnone
        exact Option.noConfusion hnone
      · rw [← h3, hforce]
  | cons o t ih =>
    intro s u rel fm hP hw
    rcases hstep : stepRelease p s o with r | s2
    · simp only [walk, walkSt, hstep] at hw
      rcases stepRelease_inl_cases p s o r hstep with ⟨u2, rel2, hsel2, hr⟩ | ⟨_, hr⟩
      · rw [hr] at hw
        obtain ⟨_, _, h3⟩ := WalkResult.sel.inj hw
        rcases hP with ⟨hnone, _⟩ | ⟨_, hforce⟩
        · rw [hsel2] at hnone
          exact Option.noConfusion hnone
        · rw [← h3, hforce]
      · rw [hr] at hw
        exact WalkResult.noConfusion hw
    · simp only [walk, walkSt, hstep] at hw
      refine ih s2 u rel fm ?_ (by simpa [walk] using hw)
      rcases stepRelease_inr_cases p s o s2 hstep with heq | ⟨r2, _, heq⟩ |
        ⟨r2, _, hnone, _, heq⟩ | ⟨r2, _, hnone, hch, heq⟩
      · rw [heq]
        exact hP
      · rcases hP with ⟨hsnone, hpend⟩ | ⟨hssome, hforce⟩
        · left
          rw [heq]
          exact ⟨hsnone, hpend⟩
        · right
          rw [heq]
          exact ⟨hssome, rfl⟩
      · rcases hP with ⟨hsnone, hpend⟩ | ⟨hssome, _⟩
        · left
          rw [heq]
          exact ⟨hsnone, rfl⟩
        · exact absurd hnone hssome
      · rcases hP with ⟨hsnone, hpend⟩ | ⟨hssome, _⟩
        · right
          rw [heq]
          refine ⟨by simp, ?_⟩
          show (s.pendingMandatory || r2.isMandatory) = true
          rw [hpend]
          rfl
        · exact absurd hnone hssome

/-- Processing an applicable non-disabled mandatory release that is skipped
for rollout ineligibility only latches pendingMandatory. -/
lemma stepRelease_skip_mandatory (p : UpdateCheckParams) (s : LoopState) (R : CachedRelease)
    (hsel : s.selected = none)
    (hcur : isClientPackage R p.requestLabel p.requestPackageHash = false)
    (hdis : R.isDisabled = false)
    (happ : releaseApplies p R = true)
    (hroll : isUnfinishedRollout R.rollout = true)
    (hnosel : (p.betaRequested ||
      isClientSelectedForRollout R p.clientUniqueId (releaseRolloutKey R) p.now) = false)
    (hmand : R.isMandatory = true) :
    stepRelease p s (some R) = Sum.inr { s with pendingMandatory := true } := by
  simp [stepRelease, hcur, hdis, happ, hsel, hroll, hnosel, hmand]

/-- Diff hydration only rewrites downloadURL and packageSize. -/
lemma hydrate_preserves (proxy : String → String) (u : UpdateCheckResponse)
    (rel : CachedRelease) (hash : String)
    (f : String → Except RedisErr (Option (List (String × BlobInfo)))) :
    (hydrateDiffPayloadForRelease proxy u rel hash f).isMandatory = u.isMandatory ∧
      (hydrateDiffPayloadForRelease proxy u rel hash f).isAvailable = u.isAvailable := by
  unfold hydrateDiffPayloadForRelease applyDiffPayload
  split
  · exact ⟨rfl, rfl⟩
  · split
    · exact ⟨rfl, rfl⟩
    · exact ⟨rfl, rfl⟩
    · split
      · exact ⟨rfl, rfl⟩
      · split
        · exact ⟨rfl, rfl⟩
        · exact ⟨rfl, rfl⟩

/-- Finalization with forceMandatory answers isMandatory = true. -/
lemma finalize_forced (u : UpdateCheckResponse) (rel : CachedRelease) (raw norm : String) :
    (finalizeUpdateCheckResponse u rel true raw norm).isMandatory = true := by
  simp [finalizeUpdateCheckResponse]

/-- The no-update answer of buildUpdateCheckBody is not available. -/
lemma build_noUpd_not_available (p : UpdateCheckParams)
    (f : String → Except RedisErr (Option (List (String × BlobInfo))))
    (resp : CacheableResponse) (hw : walk p initLoopState resp.body.releases = WalkResult.noUpd) :
    (buildUpdateCheckBody p f resp).isAvailable = false := by
  simp [buildUpdateCheckBody, hw, buildNoUpdateResponse]

/-- C4: if the walk reaches an applicable, non-disabled, mandatory release R
while nothing is selected yet (so R is newer than whatever gets selected),
and R is skipped only because the client is not in its rollout cohort, then
whenever buildUpdateCheckBody does return a selected update, that update is
mandatory. -/
theorem c4_mandatory_forwarding (p : UpdateCheckParams)
    (f : String → Except RedisErr (Option (List (String × BlobInfo))))
    (code : ℕ) (pre post : List (Option CachedRelease)) (R : CachedRelease) (s1 : LoopState)
    (hpre : walkSt p initLoopState pre = Sum.inr s1)
    (hsel : s1.selected = none)
    (hcur : isClientPackage R p.requestLabel p.requestPackageHash = false)
    (hdis : R.isDisabled = false)
    (happ : releaseApplies p R = true)
    (hroll : isUnfinishedRollout R.rollout = true)
    (hnosel : (p.betaRequested ||
      isClientSelectedForRollout R p.clientUniqueId (releaseRolloutKey R) p.now) = false)
    (hmand : R.isMandatory = true)
    (hres : (buildUpdateCheckBody p f ⟨code, ⟨pre ++ some R :: post⟩⟩).isAvailable = true) :
    (buildUpdateCheckBody p f ⟨code, ⟨pre ++ some R :: post⟩⟩).isMandatory = true := by
  have hstep := stepRelease_skip_mandatory p s1 R hsel hcur hdis happ hroll hnosel hmand
  have hwsplit : walk p initLoopState (pre ++ some R :: post) =
      walk p { s1 with pendingMandatory := true } post := by
    rw [walk_append p pre (some R :: post) initLoopState, hpre]
    show walk p s1 (some R :: post) = _
    simp only [walk, walkSt, hstep]
  rcases hw : walk p { s1 with pendingMandatory := true } post with _ | ⟨u, rel, fm⟩
  · have hnoupd : walk p initLoopState (pre ++ some R :: post) = WalkResult.noUpd := by
      rw [hwsplit, hw]
    have := build_noUpd_not_available p f ⟨code, ⟨pre ++ some R :: post⟩⟩ hnoupd
    rw [hres] at this
    exact Bool.noConfusion this
  · have hfm : fm = true :=
      walk_pending_mandatory p post { s1 with pendingMandatory := true } u rel fm
        (Or.inl ⟨hsel, rfl⟩) hw
    have hwsel : walk p initLoopState (pre ++ some R :: post) = WalkResult.sel u rel fm := by
      rw [hwsplit, hw]
    show (buildUpdateCheckBody p f ⟨code, ⟨pre ++ some R :: post⟩⟩).isMandatory = true
    unfold buildUpdateCheckBody
    rw [hwsel, hfm]
    exact finalize_forced _ rel p.rawAppVersion p.normalizedAppVersion

/-- C4 witness: newest release v2 is mandatory with a 50-percent rollout
that excludes the (empty) client; the older fully-rolled-out v1 is
selected and comes back mandatory. -/
def c4R : CachedRelease :=
  { appVersion := "1.0.0", blobUrl := "https://blob/v2", isMandatory := true, label := "v2",
    packageHash := "H2", size := 20, rollout := some 50 }

def c4S : CachedRelease :=
  { appVersion := "1.0.0", blobUrl := "https://blob/v1", label := "v1",
    packageHash := "H1", size := 10 }

theorem c4_witness :
    (buildUpdateCheckBody walkParams (fun _ => Except.ok none)
      ⟨200, ⟨some c4R :: some c4S :: []⟩⟩).isMandatory = true :=
  c4_mandatory_forwarding walkParams (fun _ => Except.ok none) 200 [] (some c4S :: [])
    c4R initLoopState rfl rfl rfl rfl rfl rfl rfl rfl rfl

/-- Finalization does not touch downloadURL or packageSize. -/
lemma finalize_preserves_payload (u : UpdateCheckResponse) (rel : CachedRelease)
    (fm : Bool) (raw norm : String) :
    (finalizeUpdateCheckResponse u rel fm raw norm).downloadURL = u.downloadURL ∧
      (finalizeUpdateCheckResponse u rel fm raw norm).packageSize = u.packageSize := by
  unfold finalizeUpdateCheckResponse
  cases fm
  · exact ⟨rfl, rfl⟩
  · exact ⟨rfl, rfl⟩

/-- C8: when buildUpdateCheckBody selects a release and the request carries
a package hash, a successful diff-map fetch containing an entry for that
hash substitutes the entry's url (proxied) and size; a failed fetch is
swallowed and the full-bundle url and size of the selected release stand. -/
theorem c8_diff_substitution (p : UpdateCheckParams)
    (f : String → Except RedisErr (Option (List (String × BlobInfo))))
    (code : ℕ) (rs : List (Option CachedRelease))
    (u : UpdateCheckResponse) (rel : CachedRelease) (fm : Bool)
    (hw : walk p initLoopState rs = WalkResult.sel u rel fm)
    (hhash : p.requestPackageHash ≠ "") :
    (∀ dm d, f rel.packageHash = Except.ok (some dm) →
        assocFind dm p.requestPackageHash = some d →
        (buildUpdateCheckBody p f ⟨code, ⟨rs⟩⟩).downloadURL = some (p.proxy d.url) ∧
          (buildUpdateCheckBody p f ⟨code, ⟨rs⟩⟩).packageSize = some d.size)
    ∧ ∀ e, f rel.packageHash = Except.error e →
        (buildUpdateCheckBody p f ⟨code, ⟨rs⟩⟩).downloadURL = some (p.proxy rel.blobUrl) ∧
          (buildUpdateCheckBody p f ⟨code, ⟨rs⟩⟩).packageSize = some rel.size := by
  have hu : u = createUpdateInfoFromRelease p rel :=
    walk_sel_create p rs initLoopState u rel fm (fun _ _ h => Option.noConfusion h) hw
  have hbody : buildUpdateCheckBody p f ⟨code, ⟨rs⟩⟩ =
      finalizeUpdateCheckResponse
        (hydrateDiffPayloadForRelease p.proxy u rel p.requestPackageHash f)
        rel fm p.rawAppVersion p.normalizedAppVersion := by
    unfold buildUpdateCheckBody
    rw [hw]
  constructor
  · intro dm d hfetch hfind
    have hhyd : hydrateDiffPayloadForRelease p.proxy u rel p.requestPackageHash f =
        { u with downloadURL := some (p.proxy d.url), packageSize := some d.size } := by
      simp [hydrateDiffPayloadForRelease, applyDiffPayload, hhash, hfetch, hfind]
    rw [hbody, hhyd]
    exact ⟨(finalize_preserves_payload _ rel fm p.rawAppVersion p.normalizedAppVersion).1,
      (finalize_preserves_payload _ rel fm p.rawAppVersion p.normalizedAppVersion).2⟩
  · intro e hfetch
    have hhyd : hydrateDiffPayloadForRelease p.proxy u rel p.requestPackageHash f = u := by
      simp [hydrateDiffPayloadForRelease, hhash, hfetch]
    rw [hbody, hhyd]
    refine ⟨?_, ?_⟩
    · rw [(finalize_preserves_payload u rel fm p.rawAppVersion p.normalizedAppVersion).1, hu]
      rfl
    · rw [(finalize_preserves_payload u rel fm p.rawAppVersion p.normalizedAppVersion).2, hu]
      rfl

/-- C8 witness: concrete selection of a release whose diff map contains the
client's package hash, and a failing fetcher leaving the full bundle. -/
def c8Params : UpdateCheckParams :=
  { walkParams with requestPackageHash := "H0" }

def c8DiffEntry : BlobInfo := { size := 5, url := "https://blob/diff" }

theorem c8_witness :
    ((buildUpdateCheckBody c8Params
        (fun _ => Except.ok (some (("H0", c8DiffEntry) :: [])))
        ⟨200, ⟨some walkRelease :: []⟩⟩).downloadURL = some "https://blob/diff" ∧
      (buildUpdateCheckBody c8Params
        (fun _ => Except.ok (some (("H0", c8DiffEntry) :: [])))
        ⟨200, ⟨some walkRelease :: []⟩⟩).packageSize = some 5) ∧
    (buildUpdateCheckBody c8Params (fun _ => Except.error (RedisErr.err 1))
        ⟨200, ⟨some walkRelease :: []⟩⟩).downloadURL = some "https://blob/v1" :=
  ⟨(c8_diff_substitution c8Params (fun _ => Except.ok (some (("H0", c8DiffEntry) :: [])))
      200 (some walkRelease :: [])
      (createUpdateInfoFromRelease c8Params walkRelease) walkRelease false rfl
      (by decide)).1 (("H0", c8DiffEntry) :: []) c8DiffEntry rfl rfl,
    ((c8_diff_substitution c8Params (fun _ => Except.error (RedisErr.err 1))
      200 (some walkRelease :: [])
      (createUpdateInfoFromRelease c8Params walkRelease) walkRelease false rfl
      (by decide)).2 (RedisErr.err 1) rfl).1⟩

lemma filterMap_some_eq_map {α β} (f : α → β) (l : List α) :
    l.filterMap (fun a => some (f a)) = l.map f := by
  induction l with
  | nil => rfl
  | cons a t ih => simp [List.filterMap_cons, ih]

/-- The upload times of the (non-null) releases of a cacheable response
body, in list order. -/
def releaseUploadTimes (rs : List (Option CachedRelease)) : List ℚ :=
  rs.filterMap (fun o => o.bind (fun rel => rel.rolloutUploadTime))

/-- Two concrete packages uploaded at times 1 and 2, oldest first. -/
def c2pkgA : Package :=
  { appVersion := "1.0.0", blobUrl := "https://blob/a", label := "v1",
    packageHash := "H1", size := 1, uploadTime := 1 }

def c2pkgB : Package :=
  { appVersion := "1.0.0", blobUrl := "https://blob/b", label := "v2",
    packageHash := "H2", size := 2, uploadTime := 2 }

def c2req : UpdateCheckRequest :=
  { appVersion := "1.0.0", deploymentKey := "k", isCompanion := true }

/-- C2 counterexample: from the oldest-first history (upload times 1 then
2), getUpdatePackageInfo produces the releases list with upload times
[2, 1] - newest FIRST - so the list is not strictly increasing by upload
time and the newest release is not last. -/
theorem c2_counterexample :
    releaseUploadTimes (getUpdatePackageInfo (fun _ _ => true)
        (c2pkgA :: c2pkgB :: []) c2req).releases = ((2 : ℚ) :: 1 :: []) ∧
      ¬ List.Pairwise (fun a b : ℚ => a < b)
        (releaseUploadTimes (getUpdatePackageInfo (fun _ _ => true)
          (c2pkgA :: c2pkgB :: []) c2req).releases) := by
  constructor
  · decide
  · intro h
    have he : releaseUploadTimes (getUpdatePackageInfo (fun _ _ => true)
        (c2pkgA :: c2pkgB :: []) c2req).releases = ((2 : ℚ) :: 1 :: []) := by decide
    rw [he] at h
    rcases h with _ | ⟨hlt, _⟩
    have := hlt 1 (List.mem_singleton.mpr rfl)
    linarith

/-- C2 (amended): getUpdatePackageInfo reverses the oldest-first history,
so the releases list is strictly DECREASING by upload time (newest first),
and the walk of buildUpdateCheckBody consumes the list front-to-back,
selecting the first eligible entry - i.e. it assumes the newest release
comes first, not last. -/
theorem c2_release_order :
    (∀ (sat : String → String → Bool) (history : List Package) (req : UpdateCheckRequest),
        List.Pairwise (fun a b : Package => a.uploadTime < b.uploadTime) history →
        List.Pairwise (fun a b : ℚ => b < a)
          (releaseUploadTimes (getUpdatePackageInfo sat history req).releases))
    ∧ ∀ (p : UpdateCheckParams) (rel : CachedRelease) (post : List (Option CachedRelease)),
        isClientPackage rel p.requestLabel p.requestPackageHash = false →
        rel.isDisabled = false →
        releaseApplies p rel = true →
        (!isUnfinishedRollout rel.rollout || (p.betaRequested ||
          isClientSelectedForRollout rel p.clientUniqueId (releaseRolloutKey rel) p.now)) =
            true →
        ∃ fm, walk p initLoopState (some rel :: post) =
          WalkResult.sel (createUpdateInfoFromRelease p rel) rel fm := by
  constructor
  · intro sat history req hsorted
    have hmap : releaseUploadTimes (getUpdatePackageInfo sat history req).releases =
        ((history.reverse.filter (fun pkg => req.isCompanion ||
          sat (normalizeAppVersion req.appVersion) pkg.appVersion)).map
            (fun pkg => pkg.uploadTime)) := by
      unfold releaseUploadTimes getUpdatePackageInfo
      rw [List.filterMap_map]
      have : ((fun o : Option CachedRelease => o.bind fun rel => rel.rolloutUploadTime) ∘
          fun pkg : Package => some (convertToCachedRelease pkg)) =
            fun pkg : Package => some pkg.uploadTime := by
        funext pkg
        rfl
      rw [this, filterMap_some_eq_map]
    rw [hmap]
    rw [List.pairwise_map]
    apply List.Pairwise.filter
    rw [List.pairwise_reverse]
    exact hsorted
  · intro p rel post hcur hdis happ hchosen
    have hstep : stepRelease p initLoopState (some rel) =
        Sum.inr { selected := some (createUpdateInfoFromRelease p rel, rel)
                  forceMandatory := rel.isMandatory
                  pendingMandatory := false } := by
      simp [stepRelease, hcur, hdis, happ, hchosen, initLoopState]
    obtain ⟨fm, hfm⟩ := walk_selected_stable p post
      { selected := some (createUpdateInfoFromRelease p rel, rel)
        forceMandatory := rel.isMandatory
        pendingMandatory := false }
      (createUpdateInfoFromRelease p rel) rel rfl
    refine ⟨fm, ?_⟩
    simp only [walk, walkSt, hstep]
    simpa [walk] using hfm

/-- C2 witness: a sorted two-package history yields strictly decreasing
release upload times, and a concrete eligible head release is selected. -/
theorem c2_witness :
    List.Pairwise (fun a b : ℚ => b < a)
      (releaseUploadTimes (getUpdatePackageInfo (fun _ _ => true)
        (c2pkgA :: c2pkgB :: []) c2req).releases) ∧
    ∃ fm, walk walkParams initLoopState (some walkRelease :: []) =
      WalkResult.sel (createUpdateInfoFromRelease walkParams walkRelease) walkRelease fm :=
  ⟨c2_release_order.1 (fun _ _ => true) (c2pkgA :: c2pkgB :: []) c2req (by decide),
    c2_release_order.2 walkParams walkRelease [] rfl rfl rfl rfl⟩

/-- RedisManager.getCachedResponse: when the manager is disabled resolve
null; otherwise look the url up in the deployment's hash (the hget result,
with JSON parsing folded into the stored value), resolve the parsed
response or null on a miss, and on an I/O error log and RE-THROW
(`.catch(err => { console.error(...); throw err; })`). -/
def getCachedResponse (isEnabled : Bool)
    (hget : Except RedisErr (Option CacheableResponse)) :
    Except RedisErr (Option CacheableResponse) :=
  if isEnabled = false then Except.ok none
  else
    match hget with
    | Except.ok (some response) => Except.ok (some response)
    | Except.ok none => Except.ok none
    | Except.error e => Except.error e

/-- RedisManager.setCachedResponse: when disabled resolve; otherwise run
exists, then hset, then (for a new key) expire, propagating the first
error of the chain after logging it (`throw err`). -/
def setCachedResponse (isEnabled : Bool) (existsRes : Except RedisErr ℕ)
    (hsetRes : Except RedisErr ℕ) (expireRes : Except RedisErr ℕ) : Except RedisErr Unit :=
  if isEnabled = false then Except.ok ()
  else
    match existsRes with
    | Except.error e => Except.error e
    | Except.ok isExisting =>
      match hsetRes with
      | Except.error e => Except.error e
      | Except.ok _ =>
        if isExisting = 0 then
          match expireRes with
          | Except.error e => Except.error e
          | Except.ok _ => Except.ok ()
        else Except.ok ()

/-- The updateCheck handler's read-path wrapper around getCachedResponse:
`.catch(error => { redisError = error; return null })` - the error is
remembered for logging and the request proceeds with a cache miss. -/
def updateCheckHandleCachedRead (isEnabled : Bool)
    (hget : Except RedisErr (Option CacheableResponse)) :
    Option CacheableResponse × Option RedisErr :=
  match getCachedResponse isEnabled hget with
  | Except.ok v => (v, none)
  | Except.error e => (none, some e)

/-- The updateCheck handler's write-path wrapper around setCachedResponse:
`.catch(error => console.warn(...))` - the error is logged and swallowed. -/
def updateCheckHandleCacheWrite (isEnabled : Bool) (existsRes : Except RedisErr ℕ)
    (hsetRes : Except RedisErr ℕ) (expireRes : Except RedisErr ℕ) : Option RedisErr :=
  match setCachedResponse isEnabled existsRes hsetRes expireRes with
  | Except.ok _ => none
  | Except.error e => some e

/-- C3 counterexample: on an I/O error, RedisManager.getCachedResponse does
NOT return null to its caller - it re-throws the error - and
RedisManager.setCachedResponse does NOT resolve - it re-throws too. -/
theorem c3_counterexample :
    getCachedResponse true (Except.error (RedisErr.err 7)) ≠ Except.ok none ∧
      getCachedResponse true (Except.error (RedisErr.err 7)) =
        Except.error (RedisErr.err 7) ∧
      setCachedResponse true (Except.ok 1) (Except.error (RedisErr.err 3)) (Except.ok 1) ≠
        Except.ok () ∧
      setCachedResponse true (Except.ok 1) (Except.error (RedisErr.err 3)) (Except.ok 1) =
        Except.error (RedisErr.err 3) := by
  refine ⟨?_, rfl, ?_, rfl⟩
  · intro h
    exact Except.noConfusion h
  · intro h
    exact Except.noConfusion h

/-- C3 (amended): the RedisManager methods log and RE-THROW cache I/O
errors; the graceful degradation lives in the updateCheck handler, whose
catch wrappers turn a read error into a null cache miss (remembering the
error for logging) and swallow a write error, so no cache error escapes
the handler. -/
theorem c3_cache_error_plumbing :
    (∀ e : RedisErr, getCachedResponse true (Except.error e) = Except.error e)
    ∧ (∀ e : RedisErr, getCachedResponse false (Except.error e) = Except.ok none)
    ∧ (∀ (e : RedisErr) (hs xp : Except RedisErr ℕ),
        setCachedResponse true (Except.error e) hs xp = Except.error e)
    ∧ (∀ (e : RedisErr) (n : ℕ) (xp : Except RedisErr ℕ),
        setCachedResponse true (Except.ok n) (Except.error e) xp = Except.error e)
    ∧ (∀ (e : RedisErr) (m : ℕ),
        setCachedResponse true (Except.ok 0) (Except.ok m) (Except.error e) = Except.error e)
    ∧ (∀ (b : Bool) (e : RedisErr),
        updateCheckHandleCachedRead b (Except.error e) =
          (none, if b then some e else none))
    ∧ ∀ (b : Bool) (ex hs xp : Except RedisErr ℕ),
        (updateCheckHandleCacheWrite b ex hs xp = none ↔
          setCachedResponse b ex hs xp = Except.ok ()) := by
  refine ⟨fun e => rfl, fun e => rfl, fun e hs xp => rfl, fun e n xp => rfl,
    fun e m => rfl, ?_, ?_⟩
  · intro b e
    cases b
    · rfl
    · rfl
  · intro b ex hs xp
    unfold updateCheckHandleCacheWrite
    rcases hs2 : setCachedResponse b ex hs xp with e | u
    · constructor
      · intro h
        exact Option.noConfusion h
      · intro h
        exact Except.noConfusion h
    · constructor
      · intro _
        rfl
      · intro _
        rfl

/-- Deployment status constants from redis-manager. -/
def DEPLOYMENT_SUCCEEDED : String := "DeploymentSucceeded"

def DEPLOYMENT_FAILED : String := "DeploymentFailed"

def DOWNLOADED : String := "Downloaded"

/-- Utilities.isValidDeploymentStatus from redis-manager. -/
def isValidDeploymentStatus (status : String) : Bool :=
  status == DEPLOYMENT_SUCCEEDED || status == DEPLOYMENT_FAILED || status == DOWNLOADED

/-- The validation prefix of the report-deploy handler: fields are taken
after camelCase/snake_case coalescing, with JavaScript truthiness modelled
as non-emptiness; `some msg` is the 400 MalformedRequest response sent
before any metrics dispatch, `none` means validation passed. -/
def reportStatusDeployValidation (deploymentKey appVersion label status : String) :
    Option String :=
  if deploymentKey = "" ∨ appVersion = "" then
    some "A deploy status report must contain a valid appVersion and deploymentKey."
  else if label ≠ "" then
    if status = "" then
      some "A deploy status report for a labelled package must contain a valid status."
    else if !isValidDeploymentStatus status then some ("Invalid status: " ++ status)
    else none
  else none

/-- C5 counterexample: a labelled deploy report whose status is Downloaded
- neither DeploymentSucceeded nor DeploymentFailed - passes validation and
is not rejected with 400. -/
theorem c5_counterexample :
    reportStatusDeployValidation "dk" "1.0.0" "v1" "Downloaded" = none ∧
      "Downloaded" ≠ DEPLOYMENT_SUCCEEDED ∧ "Downloaded" ≠ DEPLOYMENT_FAILED := by
  refine ⟨by decide, by decide, by decide⟩

/-- C5 (amended): a labelled deploy report is rejected with 400
MalformedRequest (before any metrics dispatch) unless its status is
exactly DeploymentSucceeded, DeploymentFailed, or Downloaded. -/
theorem c5_labelled_status_validation (deploymentKey appVersion label status : String)
    (hdk : deploymentKey ≠ "") (hav : appVersion ≠ "") (hlbl : label ≠ "") :
    reportStatusDeployValidation deploymentKey appVersion label status = none ↔
      (status = DEPLOYMENT_SUCCEEDED ∨ status = DEPLOYMENT_FAILED ∨ status = DOWNLOADED) := by
  unfold reportStatusDeployValidation
  rw [if_neg (by tauto), if_pos hlbl]
  by_cases hst : status = ""
  · rw [if_pos hst, hst]
    constructor
    · intro h
      exact Option.noConfusion h
    · intro h
      rcases h with h | h | h <;> exact absurd h (by decide)
  · rw [if_neg hst]
    unfold isValidDeploymentStatus
    constructor
    · intro h
      by_contra hc
      push_neg at hc
      obtain ⟨h1, h2, h3⟩ := hc
      have hfalse : (status == DEPLOYMENT_SUCCEEDED || status == DEPLOYMENT_FAILED ||
          status == DOWNLOADED) = false := by
        rw [beq_eq_false_iff_ne.mpr h1, beq_eq_false_iff_ne.mpr h2, beq_eq_false_iff_ne.mpr h3]
        rfl
      rw [hfalse] at h
      exact Option.noConfusion h
    · intro h
      have htrue : (status == DEPLOYMENT_SUCCEEDED || status == DEPLOYMENT_FAILED ||
          status == DOWNLOADED) = true := by
        rcases h with h | h | h <;> simp [h]
      rw [htrue]
      rfl

/-- C5 witness: the amended theorem applied to a labelled Downloaded
report, which is accepted. -/
theorem c5_witness :
    reportStatusDeployValidation "dk" "1.0.0" "v1" "Downloaded" = none ↔
      ("Downloaded" = DEPLOYMENT_SUCCEEDED ∨ "Downloaded" = DEPLOYMENT_FAILED ∨
        "Downloaded" = DOWNLOADED) :=
  c5_labelled_status_validation "dk" "1.0.0" "v1" "Downloaded"
    (by decide) (by decide) (by decide)

/-- Concrete rollout input for the C7 witness: rollout 10, one minute of
hold, two minutes of ramp, uploaded at time 1000. -/
def c7WitnessInput : RolloutComputationInput :=
  { rollout := some 10, holdDurationMinutes := some 1,
    rampDurationMinutes := some 2, uploadTime := some 1000 }

/-- C7 witness: the amended theorem applied to the concrete input. -/
theorem c7_witness :
    getEffectiveRollout c7WitnessInput 0 ≤ getEffectiveRollout c7WitnessInput 500000 ∧
      getEffectiveRollout c7WitnessInput 1000 = 10 ∧
      getEffectiveRollout c7WitnessInput 10000000 = 100 := by
  have h := c7_effective_rollout c7WitnessInput 10 1000 rfl (by norm_num) (by norm_num)
    (by norm_num) rfl (by norm_num)
  exact ⟨h.1 0 500000 (by norm_num),
    h.2.1 1000 (by norm_num [c7WitnessInput, MS_PER_MINUTE]),
    h.2.2 (by norm_num [c7WitnessInput]) 10000000
      (by norm_num [c7WitnessInput, MS_PER_MINUTE])⟩

end CodePush
